import Mathlib

/-!
Verification of the JSON change-application engine (`apply-json-changes`).

The engine applies a batch of declarative file mutations (create, delete,
complete_update, partial_update, rename_move) to a tree of text files.
The definitions below are a shallow embedding of the TypeScript source:

  * JS string builtins used by the source (`split('\n')`, `join('\n')`,
    `trim()`, `split('/')`) are embedded as executable functions over
    `List Char` / `String`.
  * The browser storage backend (File System Access API) is modelled as a
    flat file store (resolved path components to raw text) together with
    the set of directories created so far, exposing exactly the operations
    the source uses: resolve-with-create, get file, write file, remove
    entry.
  * Each handler (`createFile`, `deleteFile`, `completeUpdate`,
    `partialUpdate`, `renameMoveFile`), the matcher
    (`findAllContextMatches`), the splicer (`replaceContextBlock`) and the
    dispatcher (`applyJsonChanges`) are translated statement by statement
    from the source, including the JavaScript `undefined`-index semantics
    of `indices[occurrenceIndex - 1]` inside `replaceContextBlock`.
-/

/-- Embedding of JavaScript `s.split(sep)` for a single-character separator,
on the character list of the string: splitting the empty text yields one
empty chunk, and every occurrence of the separator starts a new chunk. -/
def splitCharAux (sep : Char) : List Char → List (List Char)
  | [] => [[]]
  | c :: rest =>
    if c = sep then [] :: splitCharAux sep rest
    else
      match splitCharAux sep rest with
      | [] => [[c]]
      | chunk :: chunks => (c :: chunk) :: chunks

/-- Embedding of JavaScript `parts.join(sep)` for a single-character
separator, on character lists. -/
def joinCharAux (sep : Char) : List (List Char) → List Char
  | [] => []
  | [chunk] => chunk
  | chunk :: chunks => chunk ++ sep :: joinCharAux sep chunks

/-- Embedding of JavaScript `text.split('\n')` as used when the engine reads
a file into lines. -/
def jsSplitNl (s : String) : List String :=
  (splitCharAux (Char.ofNat 10) s.data).map String.mk

/-- Embedding of JavaScript `lines.join('\n')` as used by `writeToFile`. -/
def jsJoinNl (lines : List String) : String :=
  String.mk (joinCharAux (Char.ofNat 10) (lines.map String.data))

/-- Embedding of JavaScript `line.trim()` (the source compares lines after
stripping leading and trailing whitespace on both sides). -/
def jsTrim (s : String) : String :=
  String.mk (((s.data.dropWhile Char.isWhitespace).reverse.dropWhile
    Char.isWhitespace).reverse)

/-- Embedding of `fullPath.split('/').filter(Boolean)` from
`getParentDirectoryAndFileName`: the path components, empty segments
dropped. -/
def splitPath (p : String) : List String :=
  ((splitCharAux '/' p.data).map String.mk).filter (fun s => s ≠ "")

/-- Shape of an individual edit of a `partial_update` record
(`PartialUpdateEdit` in the source).  `match_context` and `replacement` are
`none` when the corresponding JSON field is not an array (the source guards
on `Array.isArray`); `occurrence_index` is `none` when the field is absent
or not a number (the source guards on `typeof occurrence_index ===
'number'` and falls back to 1). -/
structure PartialUpdateEdit where
  match_context : Option (List String)
  occurrence_index : Option Int
  replacement : Option (List String)
deriving DecidableEq

/-- Value of the `edits` field of a `partial_update` record: either an
actual array of edits or some non-array JSON value (which the source
rejects with the fatal error). -/
inductive EditsField where
  | arr (edits : List PartialUpdateEdit)
  | notArray
deriving DecidableEq

/-- Tagged union of the change records (`Change` in the source).
`unknownType` stands for any record whose `type` is none of the five known
values (the source logs a warning and continues). -/
inductive ChangeRecord where
  | create (path : String) (content : List String)
  | delete (path : String)
  | completeUpdate (path : String) (new_content : List String)
  | partialUpdate (path : String) (edits : EditsField)
  | renameMove (old_path new_path : String)
  | unknownType
deriving DecidableEq

/-- Parsed input of `applyJsonChanges` (`ChangesJson` in the source).
`nullish` models a null/undefined argument, `changesNotArray` models an
object whose `changes` field is absent or not an array; both fail the
`!changesJson || !Array.isArray(changesJson.changes)` guard. -/
inductive ChangesJson where
  | nullish
  | changesNotArray
  | valid (version : Option Int) (changes : List ChangeRecord)
deriving DecidableEq

/-- Errors the engine can raise.  `invalidBatchShape` and
`invalidEditsShape` are the two explicit `throw new Error` sites of the
source; `storageError` covers exceptions thrown by the storage backend
(here: removing or opening a file that does not exist). -/
inductive ApplyError where
  | invalidBatchShape
  | invalidEditsShape
  | storageError
deriving DecidableEq

/-- Model of the storage backend (File System Access API as used by the
source), relative to the root directory handle: `files` maps resolved path
components to the raw text of the file; `dirs` records which directories
exist (the source creates intermediate directories with
`getDirectoryHandle(part, .. create: true ..)`). -/
structure FS where
  files : List (List String × String)
  dirs : List (List String)
deriving DecidableEq

/-- Looks a path up in a flat file store, returning its text. -/
def lookupFileIn : List (List String × String) → List String → Option String
  | [], _ => none
  | (q, t) :: rest, p => if q = p then some t else lookupFileIn rest p

/-- Removes every entry of a flat file store at the given path. -/
def removeFileIn : List (List String × String) → List String →
    List (List String × String)
  | [], _ => []
  | (q, t) :: rest, p =>
    if q = p then removeFileIn rest p else (q, t) :: removeFileIn rest p

/-- Content of the file at path `p`, if it exists. -/
def FS.lookupFile (fs : FS) (p : List String) : Option String :=
  lookupFileIn fs.files p

/-- Writes text `t` to path `p`, creating the file if absent and fully
overwriting it otherwise (the effect of `getFileHandle(name, .. create:
true ..)` followed by `createWritable`/`write`/`close`). -/
def FS.setFile (fs : FS) (p : List String) (t : String) : FS :=
  { fs with files := (p, t) :: removeFileIn fs.files p }

/-- Effect of `parentDir.removeEntry(fileName, .. recursive: false ..)`:
removes the file, or fails with a storage error if it does not exist. -/
def FS.removeEntry (fs : FS) (p : List String) : FS × Option ApplyError :=
  match lookupFileIn fs.files p with
  | some _ => ({ fs with files := removeFileIn fs.files p }, none)
  | none => (fs, some ApplyError.storageError)

/-- Nonempty prefixes of a component list: the chain of directories the
source's traversal visits (and creates) on the way to the parent. -/
def ancestorDirs : List String → List (List String)
  | [] => []
  | x :: xs => [x] :: (ancestorDirs xs).map (fun d => x :: d)

/-- Records one directory as existing. -/
def addDir (ds : List (List String)) (d : List String) : List (List String) :=
  if d ∈ ds then ds else d :: ds

/-- Creates (if missing) every directory on the chain leading to
`dirParts`, as the loop over `getDirectoryHandle(part, .. create: true ..)`
does. -/
def FS.mkdirs (fs : FS) (dirParts : List String) : FS :=
  { fs with dirs := (ancestorDirs dirParts).foldl addDir fs.dirs }

/-- Embedding of `getParentDirectoryAndFileName`: splits the path into
components, creates all intermediate directories, and returns the updated
store together with the resolved file key (parent components plus file
name). -/
def getParentDirectoryAndFileName (fs : FS) (fullPath : String) :
    FS × List String :=
  let parts := splitPath fullPath
  (fs.mkdirs parts.dropLast, parts)

/-- Embedding of `writeToFile`: joins the lines with newline characters and
writes the result to the file. -/
def writeToFile (fs : FS) (p : List String) (lines : List String) : FS :=
  fs.setFile p (jsJoinNl lines)

/-- Inner loop of `findAllContextMatches`: does the context block match at
start index `i`, comparing each line trimmed on both sides?  Within the
outer loop's bounds every access is in range, so the `getD` defaults are
never consulted. -/
def matchesAt (fileLines matchContext : List String) (i : Nat) : Bool :=
  (List.range matchContext.length).all fun j =>
    jsTrim (fileLines.getD (i + j) "") == jsTrim (matchContext.getD j "")

/-- Embedding of `findAllContextMatches`: all start indices `i` with
`0 ≤ i ≤ fileLines.length - matchContext.length` (the JS loop bound; no
iterations when the difference is negative) whose window matches, in
increasing order. -/
def findAllContextMatches (fileLines matchContext : List String) :
    List Nat :=
  (List.range (fileLines.length + 1 - matchContext.length)).filter
    (matchesAt fileLines matchContext)

/-- Embedding of `replaceContextBlock`.  The `occurrenceIndex` is a JS
number, modelled as `Int`.  When `indices.length < occurrenceIndex` fails
and `occurrenceIndex - 1` is not a valid index (only possible for
`occurrenceIndex ≤ 0` past the guard), the JS code reads
`indices[occurrenceIndex - 1] = undefined`, making
`fileLines.slice(0, undefined)` the whole array and
`fileLines.slice(undefined + matchContext.length) = fileLines.slice(NaN)`
the whole array again; the `none` branch reproduces that. -/
def replaceContextBlock (fileLines matchContext : List String)
    (occurrenceIndex : Int) (replacementLines : List String) : List String :=
  let indices := findAllContextMatches fileLines matchContext
  if (indices.length : Int) < occurrenceIndex then
    fileLines
  else
    match (if 1 ≤ occurrenceIndex then
        indices.get? (occurrenceIndex - 1).toNat else none) with
    | some start =>
      fileLines.take start ++ replacementLines ++
        fileLines.drop (start + matchContext.length)
    | none => fileLines ++ replacementLines ++ fileLines

/-- Body of the per-edit loop of `partialUpdate`: skip the edit when
`match_context` or `replacement` is not an array, otherwise default the
occurrence index to 1 and call `replaceContextBlock`. -/
def applyEdit (lines : List String) (e : PartialUpdateEdit) : List String :=
  match e.match_context, e.replacement with
  | some mc, some rep =>
    replaceContextBlock lines mc (e.occurrence_index.getD 1) rep
  | _, _ => lines

/-- Embedding of `createFile`: resolve (creating directories), then create
or overwrite the file with the joined content. -/
def createFile (fs : FS) (path : String) (content : List String) : FS :=
  let r := getParentDirectoryAndFileName fs path
  writeToFile r.1 r.2 content

/-- Embedding of `deleteFile`: resolve (creating directories), then remove
the entry; removal of a missing file is a storage error. -/
def deleteFile (fs : FS) (path : String) : FS × Option ApplyError :=
  let r := getParentDirectoryAndFileName fs path
  FS.removeEntry r.1 r.2

/-- Embedding of `completeUpdate`: textually the same algorithm as
`createFile`. -/
def completeUpdate (fs : FS) (path : String) (newContent : List String) :
    FS :=
  let r := getParentDirectoryAndFileName fs path
  writeToFile r.1 r.2 newContent

/-- Embedding of `partialUpdate`: reject a non-array `edits` with the fatal
error (before any path resolution); resolve; if the file is missing, log
and return; otherwise split the text into lines, fold the edits over them
in order, and write the result back once. -/
def partialUpdate (fs : FS) (path : String) (edits : EditsField) :
    FS × Option ApplyError :=
  match edits with
  | EditsField.notArray => (fs, some ApplyError.invalidEditsShape)
  | EditsField.arr es =>
    let r := getParentDirectoryAndFileName fs path
    match FS.lookupFile r.1 r.2 with
    | none => (r.1, none)
    | some text =>
      let fileLines := jsSplitNl text
      let finalLines := es.foldl applyEdit fileLines
      (writeToFile r.1 r.2 finalLines, none)

/-- Embedding of `renameMoveFile`: resolve the old path (creating its
directories), read the old file (missing file is a storage error thrown by
`getFileHandle`), resolve the new path (creating its directories), write
the old text split into lines to the new file, then remove the old
entry. -/
def renameMoveFile (fs : FS) (oldPath newPath : String) :
    FS × Option ApplyError :=
  let r1 := getParentDirectoryAndFileName fs oldPath
  match FS.lookupFile r1.1 r1.2 with
  | none => (r1.1, some ApplyError.storageError)
  | some oldText =>
    let r2 := getParentDirectoryAndFileName r1.1 newPath
    let fs3 := writeToFile r2.1 r2.2 (jsSplitNl oldText)
    FS.removeEntry fs3 r1.2

/-- Dispatch of one change record (the `switch` of `applyJsonChanges`);
unknown types only log a warning. -/
def applyChange (fs : FS) (c : ChangeRecord) : FS × Option ApplyError :=
  match c with
  | ChangeRecord.create p content => (createFile fs p content, none)
  | ChangeRecord.delete p => deleteFile fs p
  | ChangeRecord.completeUpdate p nc => (completeUpdate fs p nc, none)
  | ChangeRecord.partialUpdate p e => partialUpdate fs p e
  | ChangeRecord.renameMove op np => renameMoveFile fs op np
  | ChangeRecord.unknownType => (fs, none)

/-- Sequential processing of the records (the `for` loop of
`applyJsonChanges`): a fatal error stops the remaining records but keeps
the effects already applied. -/
def runChanges (fs : FS) : List ChangeRecord → FS × Option ApplyError
  | [] => (fs, none)
  | c :: rest =>
    let r := applyChange fs c
    match r.2 with
    | none => runChanges r.1 rest
    | some e => (r.1, some e)

/-- Embedding of `applyJsonChanges`: the envelope guard, then the loop. -/
def applyJsonChanges (input : ChangesJson) (fs : FS) :
    FS × Option ApplyError :=
  match input with
  | ChangesJson.nullish => (fs, some ApplyError.invalidBatchShape)
  | ChangesJson.changesNotArray => (fs, some ApplyError.invalidBatchShape)
  | ChangesJson.valid _ changes => runChanges fs changes

/-! Helper lemmas about the string primitives. -/

theorem splitCharAux_ne_nil (sep : Char) (cs : List Char) :
    splitCharAux sep cs ≠ [] := by
  cases cs with
  | nil => simp [splitCharAux]
  | cons c rest =>
    simp only [splitCharAux]
    by_cases hc : c = sep
    · simp [hc]
    · simp only [if_neg hc]
      rcases h : splitCharAux sep rest with _ | ⟨chunk, chunks⟩ <;> simp

theorem joinCharAux_splitCharAux (sep : Char) (cs : List Char) :
    joinCharAux sep (splitCharAux sep cs) = cs := by
  induction cs with
  | nil => rfl
  | cons c rest ih =>
    simp only [splitCharAux]
    by_cases hc : c = sep
    · subst hc
      simp only [if_pos rfl]
      rcases h : splitCharAux c rest with _ | ⟨chunk, chunks⟩
      · exact absurd h (splitCharAux_ne_nil c rest)
      · rw [h] at ih
        simpa [joinCharAux] using ih
    · simp only [if_neg hc]
      rcases h : splitCharAux sep rest with _ | ⟨chunk, chunks⟩
      · exact absurd h (splitCharAux_ne_nil sep rest)
      · rw [h] at ih
        cases chunks with
        | nil => simpa [joinCharAux] using ih
        | cons y ys => simpa [joinCharAux] using ih

/-- Joining with the newline the lines produced by splitting on the newline
reproduces the original text byte for byte. -/
theorem jsJoinNl_jsSplitNl (s : String) : jsJoinNl (jsSplitNl s) = s := by
  unfold jsJoinNl jsSplitNl
  rw [List.map_map]
  have hid : (String.data ∘ String.mk) = id := rfl
  rw [hid, List.map_id, joinCharAux_splitCharAux]

/-! Helper lemmas about the storage model. -/

theorem lookupFileIn_removeFileIn_self (l : List (List String × String))
    (p : List String) : lookupFileIn (removeFileIn l p) p = none := by
  induction l with
  | nil => rfl
  | cons e rest ih =>
    obtain ⟨q, t⟩ := e
    by_cases h : q = p
    · simpa [removeFileIn, h] using ih
    · simpa [removeFileIn, lookupFileIn, h] using ih

theorem lookupFileIn_removeFileIn_ne (l : List (List String × String))
    (p q : List String) (h : q ≠ p) :
    lookupFileIn (removeFileIn l p) q = lookupFileIn l q := by
  induction l with
  | nil => rfl
  | cons e rest ih =>
    obtain ⟨r, t⟩ := e
    by_cases hr : r = p
    · subst hr
      have hrq : ¬ r = q := fun hc => h hc.symm
      simp [removeFileIn, lookupFileIn, hrq, ih]
    · simp only [removeFileIn, if_neg hr, lookupFileIn]
      by_cases hq : r = q
      · simp [hq]
      · simp only [if_neg hq]
        exact ih

theorem FS.lookupFile_setFile_self (fs : FS) (p : List String) (t : String) :
    (fs.setFile p t).lookupFile p = some t := by
  simp [FS.setFile, FS.lookupFile, lookupFileIn]

theorem FS.lookupFile_setFile_ne (fs : FS) (p q : List String) (t : String)
    (h : q ≠ p) : (fs.setFile p t).lookupFile q = fs.lookupFile q := by
  have hpq : ¬ p = q := fun hc => h hc.symm
  simp only [FS.setFile, FS.lookupFile, lookupFileIn, if_neg hpq]
  exact lookupFileIn_removeFileIn_ne fs.files p q h

theorem FS.lookupFile_mkdirs (fs : FS) (l : List String) (p : List String) :
    (fs.mkdirs l).lookupFile p = fs.lookupFile p := rfl

theorem FS.dirs_setFile (fs : FS) (p : List String) (t : String) :
    (fs.setFile p t).dirs = fs.dirs := rfl

theorem mem_addDir (ds : List (List String)) (x d : List String) :
    d ∈ addDir ds x ↔ d ∈ ds ∨ d = x := by
  unfold addDir
  by_cases h : x ∈ ds
  · simp only [if_pos h]
    constructor
    · exact Or.inl
    · rintro (hd | rfl)
      · exact hd
      · exact h
  · simp [if_neg h, List.mem_cons, or_comm]

theorem mem_foldl_addDir (l : List (List String)) (ds : List (List String))
    (d : List String) : d ∈ l.foldl addDir ds ↔ d ∈ ds ∨ d ∈ l := by
  induction l generalizing ds with
  | nil => simp
  | cons x xs ih =>
    simp only [List.foldl_cons, ih, mem_addDir, List.mem_cons]
    tauto

theorem mem_dirs_mkdirs (fs : FS) (l : List String) (d : List String) :
    d ∈ (fs.mkdirs l).dirs ↔ d ∈ fs.dirs ∨ d ∈ ancestorDirs l := by
  simp [FS.mkdirs, mem_foldl_addDir]

/-! Helper lemmas about the engine. -/

theorem runChanges_append (l1 l2 : List ChangeRecord) (fs fs' : FS)
    (h : runChanges fs l1 = (fs', none)) :
    runChanges fs (l1 ++ l2) = runChanges fs' l2 := by
  induction l1 generalizing fs with
  | nil =>
    simp only [runChanges] at h
    cases h
    simp
  | cons c rest ih =>
    simp only [runChanges, List.cons_append] at h ⊢
    cases hr : (applyChange fs c).2 with
    | none =>
      rw [hr] at h
      simp only at h ⊢
      exact ih _ h
    | some e =>
      rw [hr] at h
      simp at h

theorem matchesAt_iff (fileLines matchContext : List String) (i : Nat) :
    matchesAt fileLines matchContext i = true ↔
      ∀ j, j < matchContext.length →
        jsTrim (fileLines.getD (i + j) "") =
          jsTrim (matchContext.getD j "") := by
  unfold matchesAt
  rw [List.all_eq_true]
  constructor
  · intro h j hj
    exact eq_of_beq (h j (List.mem_range.mpr hj))
  · intro h j hj
    exact beq_iff_eq.mpr (h j (List.mem_range.mp hj))

theorem mem_findAllContextMatches (fileLines matchContext : List String)
    (i : Nat) :
    i ∈ findAllContextMatches fileLines matchContext ↔
      (i + matchContext.length ≤ fileLines.length ∧
       ∀ j, j < matchContext.length →
         jsTrim (fileLines.getD (i + j) "") =
           jsTrim (matchContext.getD j "")) := by
  unfold findAllContextMatches
  rw [List.mem_filter, List.mem_range, matchesAt_iff]
  have harith : i < fileLines.length + 1 - matchContext.length ↔
      i + matchContext.length ≤ fileLines.length := by omega
  rw [harith]

theorem findAllContextMatches_pairwise (fileLines matchContext :
    List String) :
    List.Pairwise (fun a b => a < b)
      (findAllContextMatches fileLines matchContext) :=
  (List.pairwise_lt_range _).sublist (List.filter_sublist _)

theorem replaceContextBlock_skip (fileLines matchContext replacementLines :
    List String) (k : Int)
    (h : ((findAllContextMatches fileLines matchContext).length : Int) < k) :
    replaceContextBlock fileLines matchContext k replacementLines =
      fileLines := by
  simp only [replaceContextBlock]
  rw [if_pos h]

/-- C1: for every list of file lines (N lines) and every match context
(M lines), `findAllContextMatches` returns exactly the ordered sequence of
all 0-based start indices `i` with `i + M ≤ N` such that for every `j < M`
the file line at `i + j` with leading and trailing whitespace stripped
equals the context line at `j` with leading and trailing whitespace
stripped; the result is strictly increasing and characterised purely by
the window condition, so overlapping candidate windows are all included
and no occurrence suppresses another. -/
theorem c1_findAllContextMatches_contract
    (fileLines matchContext : List String) :
    (∀ i, i ∈ findAllContextMatches fileLines matchContext ↔
      (i + matchContext.length ≤ fileLines.length ∧
       ∀ j, j < matchContext.length →
         jsTrim (fileLines.getD (i + j) "") =
           jsTrim (matchContext.getD j ""))) ∧
    List.Pairwise (fun a b => a < b)
      (findAllContextMatches fileLines matchContext) :=
  ⟨fun i => mem_findAllContextMatches fileLines matchContext i,
   findAllContextMatches_pairwise fileLines matchContext⟩

/-- Witness for C1: whitespace-insensitive matching accepts a padded
context line, and the two overlapping windows of `a a a` are both
reported. -/
theorem c1_witness :
    (1 ∈ findAllContextMatches ["x", "  MATCH  ", "y"] ["MATCH"]) ∧
    findAllContextMatches ["a", "a", "a"] ["a", "a"] = [0, 1] := by
  constructor
  · exact ((c1_findAllContextMatches_contract ["x", "  MATCH  ", "y"]
      ["MATCH"]).1 1).mpr ⟨by decide, by decide⟩
  · decide

/-- C2: for an edit whose `match_context` occurs at least
`occurrence_index` times (`occurrence_index` 1-based), `replaceContextBlock`
replaces the `occurrence_index`-th match by splicing: the result is the
lines before the matched block, then the replacement lines, then the lines
after the matched block, the block having length `matchContext.length` and
starting at the found index; moreover `partialUpdate` treats an absent
`occurrence_index` as 1. -/
theorem c2_replaceContextBlock_splice
    (fileLines matchContext replacementLines : List String) (k : Int)
    (h1 : 1 ≤ k)
    (h2 : k ≤ ((findAllContextMatches fileLines matchContext).length :
      Int)) :
    (∃ start,
      (findAllContextMatches fileLines matchContext).get? (k - 1).toNat =
        some start ∧
      replaceContextBlock fileLines matchContext k replacementLines =
        fileLines.take start ++ replacementLines ++
          fileLines.drop (start + matchContext.length)) ∧
    (∀ (lines mc rep : List String),
      applyEdit lines ⟨some mc, none, some rep⟩ =
        replaceContextBlock lines mc 1 rep) := by
  constructor
  · have hlen : (k - 1).toNat <
        (findAllContextMatches fileLines matchContext).length := by omega
    refine ⟨(findAllContextMatches fileLines matchContext).get
      ⟨(k - 1).toNat, hlen⟩, List.get?_eq_get hlen, ?_⟩
    simp only [replaceContextBlock]
    rw [if_neg (by omega : ¬ (((findAllContextMatches fileLines
        matchContext).length : Int) < k)), if_pos h1,
      List.get?_eq_get hlen]
  · intro lines mc rep
    rfl

/-- Witness for C2: replacing the second occurrence of `MATCH` in
`Start MATCH MATCH End`. -/
theorem c2_witness :
    (1 : Int) ≤ 2 ∧
    (2 : Int) ≤ ((findAllContextMatches ["Start", "MATCH", "MATCH", "End"]
      ["MATCH"]).length : Int) ∧
    (∃ start,
      (findAllContextMatches ["Start", "MATCH", "MATCH", "End"]
        ["MATCH"]).get? ((2 : Int) - 1).toNat = some start ∧
      replaceContextBlock ["Start", "MATCH", "MATCH", "End"] ["MATCH"] 2
          ["X"] =
        (["Start", "MATCH", "MATCH", "End"] : List String).take start ++
          ["X"] ++ (["Start", "MATCH", "MATCH", "End"] :
            List String).drop (start + (["MATCH"] :
              List String).length)) :=
  ⟨by decide, by decide,
    (c2_replaceContextBlock_splice ["Start", "MATCH", "MATCH", "End"]
      ["MATCH"] ["X"] 2 (by decide) (by decide)).1⟩

/-- C3: an input whose `changes` field is absent or not a sequence (or a
nullish input) makes `applyJsonChanges` fail with the invalid-batch-shape
error before processing any record, leaving the storage state completely
unchanged. -/
theorem c3_invalid_envelope (fs : FS) (input : ChangesJson)
    (h : input = ChangesJson.nullish ∨
      input = ChangesJson.changesNotArray) :
    applyJsonChanges input fs = (fs, some ApplyError.invalidBatchShape) := by
  rcases h with rfl | rfl <;> rfl

/-- Witness for C3: a malformed envelope next to an existing store with one
file leaves the store untouched. -/
theorem c3_witness :
    (ChangesJson.changesNotArray = ChangesJson.nullish ∨
      ChangesJson.changesNotArray = ChangesJson.changesNotArray) ∧
    applyJsonChanges ChangesJson.changesNotArray ⟨[(["a"], "x")], []⟩ =
      (⟨[(["a"], "x")], []⟩, some ApplyError.invalidBatchShape) :=
  ⟨Or.inr rfl,
    c3_invalid_envelope ⟨[(["a"], "x")], []⟩ ChangesJson.changesNotArray
      (Or.inr rfl)⟩

/-- C10: for a non-positive `occurrenceIndex` (for example 0) the
occurrence-count check `indices.length < occurrenceIndex` is false, so the
skip branch is not taken, and because the looked-up start index is the JS
`undefined`, `replaceContextBlock` returns the entire original line
sequence, then the replacement lines, then the entire original line
sequence again. -/
theorem c10_nonpositive_occurrence
    (fileLines matchContext replacementLines : List String) (k : Int)
    (hk : k ≤ 0) :
    ¬ (((findAllContextMatches fileLines matchContext).length : Int) < k) ∧
    replaceContextBlock fileLines matchContext k replacementLines =
      fileLines ++ replacementLines ++ fileLines := by
  have hguard : ¬ (((findAllContextMatches fileLines
      matchContext).length : Int) < k) := by omega
  refine ⟨hguard, ?_⟩
  simp only [replaceContextBlock]
  rw [if_neg hguard, if_neg (by omega : ¬ (1 : Int) ≤ k)]

/-- Witness for C10: occurrence index 0 on a one-line file duplicates the
content around the replacement. -/
theorem c10_witness :
    (0 : Int) ≤ 0 ∧
    (¬ (((findAllContextMatches ["a"] ["a"]).length : Int) < 0) ∧
     replaceContextBlock ["a"] ["a"] 0 ["X"] =
       ["a"] ++ ["X"] ++ ["a"]) :=
  ⟨le_refl 0, c10_nonpositive_occurrence ["a"] ["a"] ["X"] 0 (le_refl 0)⟩

/-! Shared computation lemmas about the handlers. -/

theorem FS.files_mkdirs (fs : FS) (l : List String) :
    (fs.mkdirs l).files = fs.files := rfl

theorem FS.dirs_removeEntry (fs : FS) (p : List String) :
    ((fs.removeEntry p).1).dirs = fs.dirs := by
  rcases h : lookupFileIn fs.files p with _ | t <;>
    simp [FS.removeEntry, h]

theorem FS.dirs_mkdirs_mono (fs : FS) (l : List String) (d : List String)
    (h : d ∈ fs.dirs) : d ∈ (fs.mkdirs l).dirs :=
  (mem_dirs_mkdirs fs l d).mpr (Or.inl h)

/-- Deleting a missing path: the intermediate directories have been
created, then the removal fails with the storage error. -/
theorem deleteFile_of_missing (fs : FS) (p : String)
    (h : fs.lookupFile (splitPath p) = none) :
    deleteFile fs p =
      (fs.mkdirs (splitPath p).dropLast, some ApplyError.storageError) := by
  have h' : lookupFileIn (fs.mkdirs (splitPath p).dropLast).files
      (splitPath p) = none := h
  simp only [deleteFile, getParentDirectoryAndFileName, FS.removeEntry, h']

/-- Deleting a present path: the entry is removed and no error is
raised. -/
theorem deleteFile_of_present (fs : FS) (p : String) (t : String)
    (h : fs.lookupFile (splitPath p) = some t) :
    deleteFile fs p =
      ({ fs.mkdirs (splitPath p).dropLast with
          files := removeFileIn fs.files (splitPath p) }, none) := by
  have h' : lookupFileIn fs.files (splitPath p) = some t := h
  simp only [deleteFile, getParentDirectoryAndFileName, FS.removeEntry,
    FS.files_mkdirs, h']

/-- A partial update on a missing file: the intermediate directories have
been created, then the handler returns without mutating any file and
without an error. -/
theorem partialUpdate_of_missing (fs : FS) (p : String)
    (es : List PartialUpdateEdit)
    (h : fs.lookupFile (splitPath p) = none) :
    partialUpdate fs p (EditsField.arr es) =
      (fs.mkdirs (splitPath p).dropLast, none) := by
  have h' : FS.lookupFile (fs.mkdirs (splitPath p).dropLast)
      (splitPath p) = none := h
  simp only [partialUpdate, getParentDirectoryAndFileName, h']

/-- A partial update on an existing file with text `t` rewrites the file
once with the joined result of folding the edits over the split lines. -/
theorem partialUpdate_of_present (fs : FS) (p : String) (t : String)
    (es : List PartialUpdateEdit)
    (h : fs.lookupFile (splitPath p) = some t) :
    partialUpdate fs p (EditsField.arr es) =
      ((fs.mkdirs (splitPath p).dropLast).setFile (splitPath p)
        (jsJoinNl (es.foldl applyEdit (jsSplitNl t))), none) := by
  have h' : FS.lookupFile (fs.mkdirs (splitPath p).dropLast)
      (splitPath p) = some t := h
  simp only [partialUpdate, getParentDirectoryAndFileName, h',
    writeToFile]

/-- C6: a `complete_update` record is observably equivalent to a `create`
record with the same path and lines: the two handlers are the same
function, dispatching either record has the same effect, and the result
stores at the resolved path exactly the given lines joined by the newline
separator, with all intermediate directories created. -/
theorem c6_completeUpdate_equiv_create (fs : FS) (path : String)
    (content : List String) :
    completeUpdate fs path content = createFile fs path content ∧
    applyChange fs (ChangeRecord.completeUpdate path content) =
      applyChange fs (ChangeRecord.create path content) ∧
    (createFile fs path content).lookupFile (splitPath path) =
      some (jsJoinNl content) ∧
    (∀ d, d ∈ ancestorDirs (splitPath path).dropLast →
      d ∈ (createFile fs path content).dirs) := by
  refine ⟨rfl, rfl, ?_, ?_⟩
  · simp only [createFile, getParentDirectoryAndFileName, writeToFile]
    exact FS.lookupFile_setFile_self _ _ _
  · intro d hd
    simp only [createFile, getParentDirectoryAndFileName, writeToFile]
    exact (mem_dirs_mkdirs fs _ d).mpr (Or.inr hd)

/-- Witness for C6: both records put `x\ny` at `d/a.txt`. -/
theorem c6_witness :
    completeUpdate ⟨[], []⟩ "d/a.txt" ["x", "y"] =
      createFile ⟨[], []⟩ "d/a.txt" ["x", "y"] ∧
    (createFile ⟨[], []⟩ "d/a.txt" ["x", "y"]).lookupFile
      (splitPath "d/a.txt") = some "x\ny" := by
  refine ⟨(c6_completeUpdate_equiv_create ⟨[], []⟩ "d/a.txt"
    ["x", "y"]).1, ?_⟩
  rw [(c6_completeUpdate_equiv_create ⟨[], []⟩ "d/a.txt"
    ["x", "y"]).2.2.1]
  decide

/-- C8: deleting a path that does not exist raises a fatal storage error
that aborts all remaining records of the batch (a missing target for
delete is an error, not a no-op); deleting a present path removes exactly
that file, raises no error, and affects no other file. -/
theorem c8_delete_policy (fs : FS) (p : String) :
    (fs.lookupFile (splitPath p) = none →
      ∀ rest, runChanges fs (ChangeRecord.delete p :: rest) =
        (fs.mkdirs (splitPath p).dropLast,
          some ApplyError.storageError)) ∧
    (∀ t, fs.lookupFile (splitPath p) = some t →
      ((deleteFile fs p).2 = none ∧
       ((deleteFile fs p).1).lookupFile (splitPath p) = none ∧
       ∀ q, q ≠ splitPath p →
         ((deleteFile fs p).1).lookupFile q = fs.lookupFile q)) := by
  constructor
  · intro hmiss rest
    simp only [runChanges, applyChange, deleteFile_of_missing fs p hmiss]
  · intro t hsome
    rw [deleteFile_of_present fs p t hsome]
    refine ⟨rfl, ?_, ?_⟩
    · exact lookupFileIn_removeFileIn_self fs.files (splitPath p)
    · intro q hq
      exact lookupFileIn_removeFileIn_ne fs.files (splitPath p) q hq

/-- Witness for C8: deleting the absent `d/x` aborts before a later create
runs, and deleting the present `a` removes it. -/
theorem c8_witness :
    runChanges ⟨[], []⟩
        [ChangeRecord.delete "d/x", ChangeRecord.create "y" ["z"]] =
      ((FS.mk [] []).mkdirs (splitPath "d/x").dropLast,
        some ApplyError.storageError) ∧
    ((deleteFile ⟨[(["a"], "t")], []⟩ "a").1).lookupFile (splitPath "a") =
      none :=
  ⟨(c8_delete_policy ⟨[], []⟩ "d/x").1 (by decide)
      [ChangeRecord.create "y" ["z"]],
    ((c8_delete_policy ⟨[(["a"], "t")], []⟩ "a").2 "t" (by decide)).2.1⟩

/-- C4: a batch containing a `partial_update` record whose `edits` field is
not a sequence fails with the fatal invalid-edits-shape error when that
record is reached: every earlier record has already been applied and its
effects persist, and no record after the failing one is processed. -/
theorem c4_invalid_edits_scoped (fs fs' : FS) (version : Option Int)
    (pre post : List ChangeRecord) (path : String)
    (h : runChanges fs pre = (fs', none)) :
    applyJsonChanges (ChangesJson.valid version
        (pre ++ ChangeRecord.partialUpdate path EditsField.notArray ::
          post)) fs =
      (fs', some ApplyError.invalidEditsShape) := by
  simp only [applyJsonChanges]
  rw [runChanges_append pre _ fs fs' h]
  rfl

/-- Witness for C4: the create before the malformed record persists, the
create after it never runs. -/
theorem c4_witness :
    runChanges ⟨[], []⟩ [ChangeRecord.create "a" ["1"]] =
      (createFile ⟨[], []⟩ "a" ["1"], none) ∧
    applyJsonChanges (ChangesJson.valid none
        ([ChangeRecord.create "a" ["1"]] ++
          ChangeRecord.partialUpdate "b" EditsField.notArray ::
            [ChangeRecord.create "c" ["2"]])) ⟨[], []⟩ =
      (createFile ⟨[], []⟩ "a" ["1"],
        some ApplyError.invalidEditsShape) :=
  ⟨rfl,
    c4_invalid_edits_scoped ⟨[], []⟩ (createFile ⟨[], []⟩ "a" ["1"]) none
      [ChangeRecord.create "a" ["1"]] [ChangeRecord.create "c" ["2"]] "b"
      rfl⟩

/-- Folding the edits leaves the lines unchanged when every edit's context
occurs fewer times than its (defaulted) occurrence index. -/
theorem foldl_applyEdit_skip (t : String) (edits : List PartialUpdateEdit)
    (hskip : ∀ e ∈ edits, ∃ mc rep, e.match_context = some mc ∧
      e.replacement = some rep ∧
      ((findAllContextMatches (jsSplitNl t) mc).length : Int) <
        e.occurrence_index.getD 1) :
    edits.foldl applyEdit (jsSplitNl t) = jsSplitNl t := by
  induction edits with
  | nil => rfl
  | cons e rest ih =>
    obtain ⟨mc, rep, hmc, hrep, hlt⟩ := hskip e (List.mem_cons_self e rest)
    have he : applyEdit (jsSplitNl t) e = jsSplitNl t := by
      simp only [applyEdit, hmc, hrep]
      exact replaceContextBlock_skip _ _ _ _ hlt
    rw [List.foldl_cons, he]
    exact ih (fun x hx => hskip x (List.mem_cons_of_mem e hx))

/-- C5: on an existing file, an edit whose `match_context` occurs fewer
than `occurrence_index` times takes the skip branch and returns the lines
unchanged (first conjunct); a `partial_update` whose edits all skip still
rewrites the file once at the end, and the split-then-join round trip
reproduces the original text byte for byte, with no error raised (second
and third conjuncts); and it does not prevent later records of the batch
from applying (fourth conjunct). -/
theorem c5_missing_occurrence_noop (fs : FS) (path : String) (t : String)
    (edits : List PartialUpdateEdit)
    (hfile : fs.lookupFile (splitPath path) = some t)
    (hskip : ∀ e ∈ edits, ∃ mc rep, e.match_context = some mc ∧
      e.replacement = some rep ∧
      ((findAllContextMatches (jsSplitNl t) mc).length : Int) <
        e.occurrence_index.getD 1) :
    (∀ (lines mc rep : List String) (k : Int),
      ((findAllContextMatches lines mc).length : Int) < k →
      replaceContextBlock lines mc k rep = lines) ∧
    partialUpdate fs path (EditsField.arr edits) =
      ((fs.mkdirs (splitPath path).dropLast).setFile (splitPath path) t,
        none) ∧
    ((fs.mkdirs (splitPath path).dropLast).setFile (splitPath path)
        t).lookupFile (splitPath path) = some t ∧
    (∀ rest, runChanges fs
        (ChangeRecord.partialUpdate path (EditsField.arr edits) :: rest) =
      runChanges ((fs.mkdirs (splitPath path).dropLast).setFile
        (splitPath path) t) rest) := by
  have hpu : partialUpdate fs path (EditsField.arr edits) =
      ((fs.mkdirs (splitPath path).dropLast).setFile (splitPath path) t,
        none) := by
    rw [partialUpdate_of_present fs path t edits hfile,
      foldl_applyEdit_skip t edits hskip, jsJoinNl_jsSplitNl]
  refine ⟨fun lines mc rep k hk =>
      replaceContextBlock_skip lines mc rep k hk,
    hpu, FS.lookupFile_setFile_self _ _ _, ?_⟩
  intro rest
  simp only [runChanges, applyChange, hpu]

/-- Witness for C5: an edit looking for the absent line `zzz` leaves
`a\nb` intact and a later create still runs. -/
theorem c5_witness :
    FS.lookupFile ⟨[(["f.txt"], "a\nb")], []⟩ (splitPath "f.txt") =
      some "a\nb" ∧
    partialUpdate ⟨[(["f.txt"], "a\nb")], []⟩ "f.txt"
        (EditsField.arr [⟨some ["zzz"], some 1, some ["X"]⟩]) =
      (((FS.mk [(["f.txt"], "a\nb")] []).mkdirs
          (splitPath "f.txt").dropLast).setFile (splitPath "f.txt")
        "a\nb", none) ∧
    (((FS.mk [(["f.txt"], "a\nb")] []).mkdirs
        (splitPath "f.txt").dropLast).setFile (splitPath "f.txt")
      "a\nb").lookupFile (splitPath "f.txt") = some "a\nb" := by
  have h := c5_missing_occurrence_noop ⟨[(["f.txt"], "a\nb")], []⟩
    "f.txt" "a\nb" [⟨some ["zzz"], some 1, some ["X"]⟩] (by decide)
    (fun e he => by
      have he' : e = ⟨some ["zzz"], some 1, some ["X"]⟩ := by
        simpa using he
      rw [he']
      exact ⟨["zzz"], ["X"], rfl, rfl, by decide⟩)
  exact ⟨by decide, h.2.1, h.2.2.1⟩

/-- C7 counterexample: the claim quantifies over every rename_move on an
existing source file, but renaming a file onto itself (old path equal to
new path) copies the content onto itself and then removes the entry, so
afterwards reading the new path fails instead of yielding the original
content. -/
theorem c7_counterexample :
    ¬ (((renameMoveFile ⟨[(["a"], "x")], []⟩ "a" "a").1).lookupFile
        (splitPath "a") = some "x") := by decide

/-- C7 (amended): provided the old path and the new path resolve to
different file keys, a rename_move on an existing source file writes the
source's content verbatim to the new path (creating intermediate
directories as needed), removes the old path, and raises no error:
afterwards reading the new path yields exactly the original text of the
old path and the old path no longer exists. -/
theorem c7_renameMove_amended (fs : FS) (oldPath newPath : String)
    (t : String)
    (hfile : fs.lookupFile (splitPath oldPath) = some t)
    (hne : splitPath oldPath ≠ splitPath newPath) :
    (renameMoveFile fs oldPath newPath).2 = none ∧
    ((renameMoveFile fs oldPath newPath).1).lookupFile
      (splitPath newPath) = some t ∧
    ((renameMoveFile fs oldPath newPath).1).lookupFile
      (splitPath oldPath) = none ∧
    (∀ d, d ∈ ancestorDirs (splitPath newPath).dropLast →
      d ∈ ((renameMoveFile fs oldPath newPath).1).dirs) := by
  have hlook1 : FS.lookupFile (fs.mkdirs (splitPath oldPath).dropLast)
      (splitPath oldPath) = some t := hfile
  have hne' : splitPath newPath ≠ splitPath oldPath :=
    fun hc => hne hc.symm
  have hlook3 : lookupFileIn
      (((fs.mkdirs (splitPath oldPath).dropLast).mkdirs
          (splitPath newPath).dropLast).setFile (splitPath newPath)
        t).files (splitPath oldPath) = some t := by
    have hstep := FS.lookupFile_setFile_ne
      ((fs.mkdirs (splitPath oldPath).dropLast).mkdirs
        (splitPath newPath).dropLast)
      (splitPath newPath) (splitPath oldPath) t hne
    exact hstep.trans hfile
  have hrmf : renameMoveFile fs oldPath newPath =
      (FS.mk
        (removeFileIn
          ((((fs.mkdirs (splitPath oldPath).dropLast).mkdirs
              (splitPath newPath).dropLast).setFile (splitPath newPath)
            t).files) (splitPath oldPath))
        ((((fs.mkdirs (splitPath oldPath).dropLast).mkdirs
            (splitPath newPath).dropLast).setFile (splitPath newPath)
          t).dirs), none) := by
    simp only [renameMoveFile, getParentDirectoryAndFileName, writeToFile,
      hlook1, jsJoinNl_jsSplitNl, FS.removeEntry, hlook3]
  rw [hrmf]
  refine ⟨rfl, ?_, ?_, ?_⟩
  · show lookupFileIn (removeFileIn _ (splitPath oldPath))
      (splitPath newPath) = some t
    rw [lookupFileIn_removeFileIn_ne _ (splitPath oldPath)
      (splitPath newPath) hne']
    exact FS.lookupFile_setFile_self _ _ _
  · exact lookupFileIn_removeFileIn_self _ _
  · intro d hd
    show d ∈ (((fs.mkdirs (splitPath oldPath).dropLast).mkdirs
      (splitPath newPath).dropLast).setFile (splitPath newPath) t).dirs
    rw [FS.dirs_setFile]
    exact (mem_dirs_mkdirs _ _ d).mpr (Or.inr hd)

/-- Witness for C7 (amended): moving `a` (content `x\ny`) to `d/b` keeps
the text and removes `a`. -/
theorem c7_witness :
    FS.lookupFile ⟨[(["a"], "x\ny")], []⟩ (splitPath "a") =
      some "x\ny" ∧
    splitPath "a" ≠ splitPath "d/b" ∧
    ((renameMoveFile ⟨[(["a"], "x\ny")], []⟩ "a" "d/b").2 = none ∧
     ((renameMoveFile ⟨[(["a"], "x\ny")], []⟩ "a" "d/b").1).lookupFile
       (splitPath "d/b") = some "x\ny" ∧
     ((renameMoveFile ⟨[(["a"], "x\ny")], []⟩ "a" "d/b").1).lookupFile
       (splitPath "a") = none) := by
  have h := c7_renameMove_amended ⟨[(["a"], "x\ny")], []⟩ "a" "d/b"
    "x\ny" (by decide) (by decide)
  exact ⟨by decide, by decide, h.1, h.2.1, h.2.2.1⟩

/-- The store returned by a partial update with array-shaped edits carries
the directories created while resolving the path, whatever the file
lookup finds. -/
theorem dirs_partialUpdate_arr (fs : FS) (p : String)
    (es : List PartialUpdateEdit) :
    ((partialUpdate fs p (EditsField.arr es)).1).dirs =
      (fs.mkdirs (splitPath p).dropLast).dirs := by
  rcases h : fs.lookupFile (splitPath p) with _ | t
  · rw [partialUpdate_of_missing fs p es h]
  · rw [partialUpdate_of_present fs p t es h]
    rfl

/-- C9 counterexample: a `partial_update` whose `edits` field is not a
sequence aborts the batch before resolving its path, so the intermediate
directory `d` of path `d/f` is never created even though the handler was
invoked and aborted; the claim as stated requires every handler to create
the missing intermediate directories before performing or aborting. -/
theorem c9_counterexample :
    ¬ (["d"] ∈ ((partialUpdate ⟨[], []⟩ "d/f"
      EditsField.notArray).1).dirs) := by decide

/-- C9 (amended): every operation handler that reaches path resolution —
create, delete, complete_update, partial_update with a sequence-shaped
`edits`, and rename_move for its old path — creates every missing
intermediate directory of that path before performing or aborting the
storage operation (a `partial_update` whose `edits` is not a sequence
aborts before resolving and creates none); consequently a delete of a path
whose parent directories do not exist still creates them even though the
delete then fails, and a partial_update on a missing file still creates
them even though the record is skipped without creating the file
itself. -/
theorem c9_handlers_create_dirs (fs : FS) (p : String) :
    (∀ content d, d ∈ ancestorDirs (splitPath p).dropLast →
      d ∈ (createFile fs p content).dirs) ∧
    (∀ d, d ∈ ancestorDirs (splitPath p).dropLast →
      d ∈ ((deleteFile fs p).1).dirs) ∧
    (∀ nc d, d ∈ ancestorDirs (splitPath p).dropLast →
      d ∈ (completeUpdate fs p nc).dirs) ∧
    (∀ edits d, d ∈ ancestorDirs (splitPath p).dropLast →
      d ∈ ((partialUpdate fs p (EditsField.arr edits)).1).dirs) ∧
    (∀ np d, d ∈ ancestorDirs (splitPath p).dropLast →
      d ∈ ((renameMoveFile fs p np).1).dirs) ∧
    (fs.lookupFile (splitPath p) = none →
      (deleteFile fs p =
        (fs.mkdirs (splitPath p).dropLast,
          some ApplyError.storageError)) ∧
      (∀ edits, partialUpdate fs p (EditsField.arr edits) =
        (fs.mkdirs (splitPath p).dropLast, none) ∧
        ((partialUpdate fs p (EditsField.arr edits)).1).lookupFile
          (splitPath p) = none)) := by
  have hmem : ∀ d, d ∈ ancestorDirs (splitPath p).dropLast →
      d ∈ (fs.mkdirs (splitPath p).dropLast).dirs :=
    fun d hd => (mem_dirs_mkdirs fs _ d).mpr (Or.inr hd)
  refine ⟨?_, ?_, ?_, ?_, ?_, ?_⟩
  · intro content d hd
    simp only [createFile, getParentDirectoryAndFileName, writeToFile]
    exact hmem d hd
  · intro d hd
    simp only [deleteFile, getParentDirectoryAndFileName]
    rw [FS.dirs_removeEntry]
    exact hmem d hd
  · intro nc d hd
    simp only [completeUpdate, getParentDirectoryAndFileName, writeToFile]
    exact hmem d hd
  · intro edits d hd
    rw [dirs_partialUpdate_arr]
    exact hmem d hd
  · intro np d hd
    simp only [renameMoveFile, getParentDirectoryAndFileName, writeToFile]
    rcases h : FS.lookupFile (fs.mkdirs (splitPath p).dropLast)
        (splitPath p) with _ | t
    · exact hmem d hd
    · simp only
      rw [FS.dirs_removeEntry, FS.dirs_setFile]
      exact FS.dirs_mkdirs_mono _ _ d (hmem d hd)
  · intro hmiss
    refine ⟨deleteFile_of_missing fs p hmiss, fun edits => ?_⟩
    refine ⟨partialUpdate_of_missing fs p edits hmiss, ?_⟩
    rw [partialUpdate_of_missing fs p edits hmiss]
    exact hmiss

/-- Witness for C9 (amended): deleting the absent `d/e/f` creates the
directories `d` and `d/e` even though the delete itself fails, and a
partial_update on the absent `d/e/f` creates them without creating the
file. -/
theorem c9_witness :
    (["d"] ∈ ancestorDirs (splitPath "d/e/f").dropLast) ∧
    ["d"] ∈ ((deleteFile ⟨[], []⟩ "d/e/f").1).dirs ∧
    ["d", "e"] ∈ ((partialUpdate ⟨[], []⟩ "d/e/f"
      (EditsField.arr [])).1).dirs ∧
    ((partialUpdate ⟨[], []⟩ "d/e/f"
      (EditsField.arr [])).1).lookupFile (splitPath "d/e/f") = none := by
  have h := c9_handlers_create_dirs ⟨[], []⟩ "d/e/f"
  exact ⟨by decide, h.2.1 ["d"] (by decide),
    h.2.2.2.1 [] ["d", "e"] (by decide),
    ((h.2.2.2.2.2 (by decide)).2 []).2⟩

/-- Sanity check of the string primitives on the example of §8 of the
specification and on the path splitter. -/
theorem primitives_sanity :
    jsSplitNl "a\nb" = ["a", "b"] ∧
    jsJoinNl ["a", "b"] = "a\nb" ∧
    jsTrim "  MATCH  " = "MATCH" ∧
    splitPath "a//b/c.txt" = ["a", "b", "c.txt"] := by decide
